import Mathlib

/-!
Shallow embedding of the repository `llm_services` (files
`src/utils/history_buffer.py` and `src/translator.py`).

Python strings are modelled as `List Char` (a Python `str` is a sequence of
code points).  The single storage location a `HistoryBuffer` may be configured
with is modelled as `FS := Option PyStr`: `some content` is the current text
content of the file at `self._file_path`, and `none` models a file that is
absent or unreadable (any read of it fails).  Exceptions are modelled with
`Except PyStr`; a raised message is the Python exception message.  A method
that can raise after mutating `self` returns the (possibly) mutated state next
to the `Except` result, mirroring the fact that a Python object keeps its
mutations when a method raises.
-/

abbrev PyStr := List Char

abbrev FS := Option PyStr

/-- Python tail slice `l[-k:]` for a non-negative `k`.
For `k = 0` Python evaluates `l[-0:] = l[0:] = l` (the whole list); for
`k > 0` it is the last `min k l.length` elements. -/
def pyNegSlice {α : Type} (l : List α) (k : Nat) : List α :=
  if k = 0 then l else l.drop (l.length - k)

/-- Index of the leftmost occurrence of `sep` in `s` (as `str.find` /
the test `sep in s` in Python), `none` when there is no occurrence. -/
def findSub (sep : PyStr) : PyStr → Option Nat
  | [] => if sep = [] then some 0 else none
  | c :: rest =>
    if sep.isPrefixOf (c :: rest) then some 0
    else (findSub sep rest).map (· + 1)

/-- Python membership test `sep in s` for strings. -/
def pyIn (sep s : PyStr) : Bool := (findSub sep s).isSome

theorem findSub_some_lt (sep : PyStr) (hsep : sep ≠ []) :
    ∀ (s : PyStr) (i : Nat), findSub sep s = some i → i < s.length := by
  intro s
  induction s with
  | nil =>
    intro i h
    simp [findSub, hsep] at h
  | cons c rest ih =>
    intro i h
    simp only [findSub] at h
    cases hp : sep.isPrefixOf (c :: rest) with
    | true =>
      simp [hp] at h
      simp only [List.length_cons]
      omega
    | false =>
      simp [hp, Option.map_eq_some'] at h
      obtain ⟨j, hj, hij⟩ := h
      have := ih j hj
      simp only [List.length_cons]
      omega

/-- Python `s.split(sep)` for a non-empty separator `c :: cs`:
split at each leftmost non-overlapping occurrence. -/
def pySplitNE (c : Char) (cs : PyStr) (s : PyStr) : List PyStr :=
  match h : findSub (c :: cs) s with
  | none => [s]
  | some i => s.take i :: pySplitNE c cs (s.drop (i + (cs.length + 1)))
termination_by s.length
decreasing_by
  have hlt : i < s.length := findSub_some_lt (c :: cs) (by simp) s i h
  simp only [List.length_drop]
  omega

/-- Python `s.split(sep)`.  Python raises `ValueError` on an empty separator;
that case is unreachable here because a `HistoryBuffer` delimiter is validated
to be non-empty at construction, so we return `[s]` as a dummy. -/
def pySplit (sep s : PyStr) : List PyStr :=
  match sep with
  | [] => [s]
  | c :: cs => pySplitNE c cs s

/-- `HistoryBuffer.__read_file`: read the whole storage location, split it on
the delimiter, and drop everything before the first delimiter (`entries[1:]`).
A missing or unreadable file (`fs = none`, the `except:` branch) yields `[]`. -/
def read_file (delimiter : PyStr) (fs : FS) : List PyStr :=
  match fs with
  | none => []
  | some content => (pySplit delimiter content).drop 1

/-- The state of a `HistoryBuffer` object (`src/utils/history_buffer.py`).
`buffer_size` is kept as a `Nat` because the constructor rejects negative
values. -/
structure HistoryBuffer where
  file_path : Option PyStr
  delimiter : PyStr
  buffer_size : Nat
  buffer : List PyStr
deriving DecidableEq

/-- Python truthiness of the optional `file_path` (the constructor guards the
eager load with `if file_path and buffer_size > 0`; an empty path string is
falsy). -/
def pyTruthy (fp : Option PyStr) : Bool :=
  match fp with
  | none => false
  | some p => !p.isEmpty

/-- Default delimiter of `HistoryBuffer.__init__`. -/
def DEFAULT_DELIMITER : PyStr := "\n____I_LOVE_YOU_HUYEN____".data

/-- `HistoryBuffer.__init__(buffer_size, file_path, delimiter)` against a
storage location currently holding `fs`.  The `isinstance` checks on the
arguments are enforced by the Lean types; the value checks (negative size,
empty delimiter) are modelled as in the source. -/
def HistoryBuffer.init (buffer_size : Int) (file_path : Option PyStr)
    (delimiter : PyStr) (fs : FS) : Except PyStr HistoryBuffer :=
  if buffer_size < 0 then
    .error "buffer_size must be a non-negative integer".data
  else if delimiter.length < 1 then
    .error "delimiter must be a string with a length of at least 1".data
  else
    let size := buffer_size.toNat
    let buffer :=
      if pyTruthy file_path ∧ 0 < size then
        pyNegSlice (read_file delimiter fs) size
      else []
    .ok ⟨file_path, delimiter, size, buffer⟩

/-- `HistoryBuffer.push(content)`.  Returns the result of the call (raised
exception or `()`), together with the state of the object and of the storage
location after the call: Python keeps the in-memory mutation of step 1 even
when the delimiter validation of step 2 raises.  `__flush_to_file` opens the
file in append mode (creating it, and any parent directories, when missing)
and writes the delimiter followed by the content. -/
def HistoryBuffer.push (self : HistoryBuffer) (fs : FS) (content : PyStr) :
    Except PyStr Unit × HistoryBuffer × FS :=
  let self1 :=
    if 0 < self.buffer_size then
      { self with buffer := pyNegSlice (self.buffer ++ [content]) self.buffer_size }
    else self
  match self.file_path with
  | some _ =>
    if pyIn self.delimiter content then
      (.error ("content must not contain the delimiter: ".data ++ self.delimiter),
        self1, fs)
    else
      (.ok (), self1, some ((fs.getD []) ++ self.delimiter ++ content))
  | none => (.ok (), self1, fs)

/-- The value computed by `HistoryBuffer.get` once `max_length` has been
resolved to a concrete non-negative integer `ml`. -/
def HistoryBuffer.get_core (self : HistoryBuffer) (fs : FS) (ml : Nat) :
    List PyStr :=
  if ml = 0 then []
  else if ml ≤ self.buffer.length ∨ self.file_path = none then
    pyNegSlice self.buffer ml
  else
    pyNegSlice (read_file self.delimiter fs) ml

/-- `HistoryBuffer.get(max_length)`.  `none` models the absent argument
(Python `None`), which resolves to `buffer_size`.  The method never mutates
the object or the file, so the input state is returned next to the value. -/
def HistoryBuffer.get (self : HistoryBuffer) (fs : FS) (max_length : Option Int) :
    Except PyStr (List PyStr × HistoryBuffer × FS) :=
  match max_length with
  | some m =>
    if m < 0 then .error "max_length must be a non-negative integer or None".data
    else .ok (self.get_core fs m.toNat, self, fs)
  | none => .ok (self.get_core fs self.buffer_size, self, fs)

/-- Run a sequence of `push` calls, stopping at the first raised exception
(the way consecutive Python statements would). -/
def pushSeqE (hb : HistoryBuffer) (fs : FS) : List PyStr →
    Except PyStr (HistoryBuffer × FS)
  | [] => .ok (hb, fs)
  | e :: es =>
    match hb.push fs e with
    | (.ok _, hb1, fs1) => pushSeqE hb1 fs1 es
    | (.error m, _, _) => .error m

/-- The text appended to the storage location by successfully pushing
`entries` in order: the delimiter followed by each entry. -/
def joinE (sep : PyStr) : List PyStr → PyStr
  | [] => []
  | e :: es => sep ++ e ++ joinE sep es

/-- `sep` has no non-trivial border: no proper non-empty suffix of `sep` is
also a prefix of `sep`.  The default delimiter has this property; it rules
out occurrences of the delimiter straddling an entry boundary in the log. -/
def borderFree (l : PyStr) : Prop :=
  ∀ k, k < l.length → 0 < k → l.drop k ≠ l.take (l.length - k)

instance (l : PyStr) : Decidable (borderFree l) := by
  unfold borderFree
  infer_instance

/-!
Embedding of `src/translator.py`.  The external chat model is a function from
the message list (contents only; the role tags carry no information the
claims need) to the raw reply text.
-/

/-- A JSON value as produced by `json.loads`.  Numbers keep their raw lexical
form: no claim inspects a numeric value, only whether a fragment parses and
what its `translated_text` string is. -/
inductive JsonVal where
  | null : JsonVal
  | bool (b : Bool) : JsonVal
  | num (raw : PyStr) : JsonVal
  | str (s : PyStr) : JsonVal
  | arr (elems : List JsonVal) : JsonVal
  | obj (members : List (PyStr × JsonVal)) : JsonVal

/-- The whitespace accepted between JSON tokens by `json.loads`. -/
def json_ws (c : Char) : Bool := c == ' ' || c == '\t' || c == '\n' || c == '\r'

def skipWs (s : PyStr) : PyStr := s.dropWhile json_ws

def hexVal (c : Char) : Option Nat :=
  if '0' ≤ c ∧ c ≤ '9' then some (c.toNat - '0'.toNat)
  else if 'a' ≤ c ∧ c ≤ 'f' then some (c.toNat - 'a'.toNat + 10)
  else if 'A' ≤ c ∧ c ≤ 'F' then some (c.toNat - 'A'.toNat + 10)
  else none

def jsonEscapeChar (e : Char) : Option Char :=
  if e = '\x22' then some '\x22'
  else if e = '\x5c' then some '\x5c'
  else if e = '/' then some '/'
  else if e = 'b' then some '\x08'
  else if e = 'f' then some '\x0c'
  else if e = 'n' then some '\n'
  else if e = 'r' then some '\r'
  else if e = 't' then some '\t'
  else none

/-- Body of a JSON string literal, after the opening quote: returns the
decoded text and the remainder after the closing quote.  `\uXXXX` escapes are
mapped through `Char.ofNat` (surrogate-pair recombination is not modelled;
no claim involves such input). -/
def parseJStringBody : PyStr → Option (PyStr × PyStr)
  | [] => none
  | c :: rest =>
    if c = '\x22' then some ([], rest)
    else if c = '\x5c' then
      match rest with
      | [] => none
      | 'u' :: h1 :: h2 :: h3 :: h4 :: rest2 =>
        match hexVal h1, hexVal h2, hexVal h3, hexVal h4 with
        | some a, some b, some d, some e =>
          (parseJStringBody rest2).map (fun br =>
            (Char.ofNat (((a * 16 + b) * 16 + d) * 16 + e) :: br.1, br.2))
        | _, _, _, _ => none
      | e :: rest2 =>
        match jsonEscapeChar e with
        | some ec => (parseJStringBody rest2).map (fun br => (ec :: br.1, br.2))
        | none => none
    else if c.toNat < 32 then none
    else (parseJStringBody rest).map (fun br => (c :: br.1, br.2))

/-- Lexes an unsigned JSON number `(0|[1-9][0-9]*)(\.[0-9]+)?([eE][+-]?[0-9]+)?`,
returning its raw text and the remainder. -/
def parseUNumber (s : PyStr) : Option (PyStr × PyStr) :=
  let intPart := s.takeWhile Char.isDigit
  let s1 := s.dropWhile Char.isDigit
  if intPart = [] then none
  else if 1 < intPart.length ∧ intPart.headI = '0' then none
  else
    let fr :=
      match s1 with
      | '.' :: r =>
        let ds := r.takeWhile Char.isDigit
        if ds = [] then (([] : PyStr), s1) else ('.' :: ds, r.dropWhile Char.isDigit)
      | _ => ([], s1)
    let ex :=
      match fr.2 with
      | e :: r =>
        if e = 'e' ∨ e = 'E' then
          let snr :=
            match r with
            | '+' :: r3 => ((['+'] : PyStr), r3)
            | '-' :: r3 => (['-'], r3)
            | _ => ([], r)
          let ds := snr.2.takeWhile Char.isDigit
          if ds = [] then (([] : PyStr), fr.2)
          else (e :: (snr.1 ++ ds), snr.2.dropWhile Char.isDigit)
        else ([], fr.2)
      | [] => ([], fr.2)
    some (intPart ++ fr.1 ++ ex.1, ex.2)

def parseNumber (s : PyStr) : Option (PyStr × PyStr) :=
  match s with
  | '-' :: r => (parseUNumber r).map (fun nr => ('-' :: nr.1, nr.2))
  | _ => parseUNumber s

mutual

/-- Recursive-descent JSON value parser (the grammar accepted by
`json.loads`, including its default `NaN`/`Infinity` extensions).  The fuel
argument only bounds recursion; `json_loads` supplies enough of it. -/
def parseValue : Nat → PyStr → Option (JsonVal × PyStr)
  | 0, _ => none
  | fuel + 1, s =>
    match skipWs s with
    | [] => none
    | c :: rest =>
      if c = '\x7b' then
        match skipWs rest with
        | '\x7d' :: r2 => some (.obj [], r2)
        | _ => (parseMembers fuel rest).map (fun mr => (.obj mr.1, mr.2))
      else if c = '[' then
        match skipWs rest with
        | ']' :: r2 => some (.arr [], r2)
        | _ => (parseElems fuel rest).map (fun er => (.arr er.1, er.2))
      else if c = '\x22' then
        (parseJStringBody rest).map (fun br => (.str br.1, br.2))
      else if "true".data.isPrefixOf (c :: rest) then some (.bool true, rest.drop 3)
      else if "false".data.isPrefixOf (c :: rest) then some (.bool false, rest.drop 4)
      else if "null".data.isPrefixOf (c :: rest) then some (.null, rest.drop 3)
      else if "NaN".data.isPrefixOf (c :: rest) then some (.num "NaN".data, rest.drop 2)
      else if "Infinity".data.isPrefixOf (c :: rest) then
        some (.num "Infinity".data, rest.drop 7)
      else if "-Infinity".data.isPrefixOf (c :: rest) then
        some (.num "-Infinity".data, rest.drop 8)
      else (parseNumber (c :: rest)).map (fun nr => (.num nr.1, nr.2))

/-- Members of a JSON object, starting at the first key; consumes the
closing brace. -/
def parseMembers : Nat → PyStr → Option (List (PyStr × JsonVal) × PyStr)
  | 0, _ => none
  | fuel + 1, s =>
    match skipWs s with
    | '\x22' :: ks =>
      match parseJStringBody ks with
      | none => none
      | some (key, r1) =>
        match skipWs r1 with
        | ':' :: r2 =>
          match parseValue fuel r2 with
          | none => none
          | some (v, r3) =>
            match skipWs r3 with
            | ',' :: r4 => (parseMembers fuel r4).map (fun mr => ((key, v) :: mr.1, mr.2))
            | '\x7d' :: r4 => some ([(key, v)], r4)
            | _ => none
        | _ => none
    | _ => none

/-- Elements of a JSON array, starting at the first element; consumes the
closing bracket. -/
def parseElems : Nat → PyStr → Option (List JsonVal × PyStr)
  | 0, _ => none
  | fuel + 1, s =>
    match parseValue fuel s with
    | none => none
    | some (v, r1) =>
      match skipWs r1 with
      | ',' :: r2 => (parseElems fuel r2).map (fun er => (v :: er.1, er.2))
      | ']' :: r2 => some ([v], r2)
      | _ => none

end

/-- `json.loads(s)`: one JSON value surrounded by optional whitespace;
anything else (including trailing data) fails. -/
def json_loads (s : PyStr) : Option JsonVal :=
  match parseValue (s.length + 1) s with
  | some (v, rest) => if skipWs rest = [] then some v else none
  | none => none

/-- Lookup in a Python dict built from parsed JSON members: a later duplicate
key overwrites an earlier one. -/
def dictLookup (key : PyStr) (members : List (PyStr × JsonVal)) : Option JsonVal :=
  members.foldl (fun acc kv => if kv.1 = key then some kv.2 else acc) none

/-- One iteration of the extraction loop of `Translator.translate`: the value
appended for a fragment `js`, or `none` when the iteration would set
`translated_text = None` and break.  In the source, a fragment that fails
`json.loads`, or parses to a non-dict (where the `in`/indexing raises into
the bare `except`), or lacks a string-typed `"translated_text"` key, all end
in that same break. -/
def extract_translated (js : PyStr) : Option PyStr :=
  match json_loads js with
  | some (.obj members) =>
    match dictLookup "translated_text".data members with
    | some (.str s) => some s
    | _ => none
  | _ => none

/-- The extraction loop over all matched fragments: `some` of the collected
strings when every fragment succeeds, `none` as soon as one fails. -/
def collectTranslated (jss : List PyStr) : Option (List PyStr) :=
  go jss []
where
  go : List PyStr → List PyStr → Option (List PyStr)
    | [], acc => some acc
    | js :: rest, acc =>
      match extract_translated js with
      | some s => go rest (acc ++ [s])
      | none => none

/-- The character class `\s` of the extraction regex, on its ASCII subset
(Python also matches some non-ASCII whitespace; no claim involves any). -/
def pyRegexSpace (c : Char) : Bool :=
  c == ' ' || c == '\t' || c == '\n' || c == '\r' || c == '\x0b' || c == '\x0c'

/-- The lookahead `(?=\s*\{|$)` of the extraction regex, evaluated just after
a closing brace: either whitespace followed by an opening brace, or `$`,
which (without `re.MULTILINE`) holds at the end of the string or just before
a terminal newline. -/
def regex_lookahead (rest : PyStr) : Bool :=
  (match rest.dropWhile pyRegexSpace with
   | '\x7b' :: _ => true
   | _ => false) ||
  (match rest with
   | [] => true
   | ['\n'] => true
   | _ => false)

/-- After an opening brace, consume the shortest body (the lazy `.*?`, with
`re.DOTALL` any character) ending at a closing brace whose lookahead holds.
`acc` holds the reversed fragment so far; returns the fragment and the
remainder. -/
def scanBody (acc : PyStr) : PyStr → Option (PyStr × PyStr)
  | [] => none
  | c :: rest =>
    if c == '\x7d' && regex_lookahead rest then some ((c :: acc).reverse, rest)
    else scanBody (c :: acc) rest

def findallF : Nat → PyStr → List PyStr
  | 0, _ => []
  | _ + 1, [] => []
  | fuel + 1, c :: rest =>
    if c == '\x7b' then
      match scanBody [c] rest with
      | some (frag, rem) => frag :: findallF fuel rem
      | none => findallF fuel rest
    else findallF fuel rest

/-- `re.findall` of the compiled pattern of `Translator.translate` over the
reply: leftmost matches, scanning resumes after each match. -/
def findall (s : PyStr) : List PyStr := findallF (s.length + 1) s

/-- `'\n'.join(...)`. -/
def pyJoin (sep : PyStr) (parts : List PyStr) : PyStr := List.intercalate sep parts

/-- Default whitespace stripped by Python `str.strip()` (ASCII subset). -/
def pyIsSpace (c : Char) : Bool := pyRegexSpace c

/-- Python `str.strip()`. -/
def pyStrip (s : PyStr) : PyStr :=
  ((s.dropWhile pyIsSpace).reverse.dropWhile pyIsSpace).reverse

/-- Python `repr` of a string: quotes it with `'` (or with `"` when the text
contains `'` but no `"`) and escapes the backslash, the chosen quote, and the
common control characters.  (`\xNN` escaping of other non-printable
characters is not modelled; no claim involves any.) -/
def pyReprStr (s : PyStr) : PyStr :=
  let q : Char := if s.contains '\x27' && !(s.contains '\x22') then '\x22' else '\x27'
  let body := s.foldr
    (fun c acc =>
      if c = '\x5c' then '\x5c' :: '\x5c' :: acc
      else if c = q then '\x5c' :: q :: acc
      else if c = '\n' then '\x5c' :: 'n' :: acc
      else if c = '\r' then '\x5c' :: 'r' :: acc
      else if c = '\t' then '\x5c' :: 't' :: acc
      else c :: acc)
    []
  q :: body ++ [q]

/-- Python `str` of a list of strings, as built for the preceding context:
`[` repr `, ` repr ... `]`. -/
def pyStrOfList (l : List PyStr) : PyStr :=
  "[".data ++ List.intercalate ", ".data (l.map pyReprStr) ++ "]".data

/-- The result dictionary of `Translator.translate`. -/
structure TransResult where
  original_text : PyStr
  translated_text : PyStr
deriving DecidableEq

/-- Python `str` of the result dict (keys in insertion order, values via
`repr`), as pushed into the history buffer. -/
def pyStrOfResult (r : TransResult) : PyStr :=
  "\x7b\x27original_text\x27: ".data ++ pyReprStr r.original_text ++
    ", \x27translated_text\x27: ".data ++ pyReprStr r.translated_text ++ "\x7d".data

/-- The module-level `system_message` content of `src/translator.py`. -/
def system_message_content : PyStr :=
  ("\n**Enhanced Translation Task Instructions**\n\nWelcome to your translation task. You are about to embark on a journey of bridging languages by translating text within a specified range. This task emphasizes precision and cultural sensitivity, ensuring the message traverses linguistic boundaries intact.\n\n**Task Overview:**\n\n" ++
    "- **Input Language:** The original language of the text.\n- **Output Language:** The language into which you are translating the text.\n- **Translation Range:** The exact portion of text assigned for translation.\n- **Contextual Framework:** Background information and any translations up to the current segment, vital for seamless continuity and accuracy.\n\n**Core Principles:**\n\n" ++
    "1. **Comprehension Before Translation:** Fully understand the source text\x27s meaning, context, nuances, and intended message. This understanding forms the foundation of a successful translation, ensuring accuracy and avoiding the pitfalls of literal translations.\n\n" ++
    "2. **Fluency and Localization:** Adapt the translation to flow naturally in the target language, respecting its cultural, linguistic norms, and sensitivities. Your translation should read as if originally written in the target language.\n\n" ++
    "3. **Consistency and Accuracy:** Maintain uniformity in terminology, style, tone, and other elements throughout your translation. Ensure the translation is a faithful representation of the original message without distortions, omissions, or unwarranted additions.\n\n" ++
    "4. **Preservation of Original Terms for Specialized Vocabulary:** When it comes to technical terms, professional jargon, or any specialized vocabulary, retain the original terms. This approach ensures that the translation remains accurate and understandable to readers familiar with the subject matter.\n\n" ++
    "5. **Engage with the Content:** Reflect on the cultural implications and potential sensitivities of the translation. Localization involves more than language conversion; it\x27s about making the content resonate with the target audience culturally and emotionally.\n\n**Your Responsibilities:**\n\n" ++
    "1. Translate **only** the designated \x22translation range.\x22\n2. Stay within the bounds of the specified segment, refraining from translating beyond.\n3. Deliver a translation that mirrors the original\x27s meaning and tone, without insertions or exclusions.\n4. Present your translation in a clean, JSON object format for clarity and consistency.\n\n**Submission Format:**\n\n" ++
    "Please submit your translated text in a JSON format. This format aids in maintaining clarity and ensures a structured presentation of your translation. Here is how you should structure your submission:\n\n```json\n\x7b\n    \x22translated_text\x22: \x22Insert your translation here.\x22\n\x7d\n```\n\nAdhere strictly to the format above. Your translation should be the sole content within the JSON object, without any supplementary remarks or alterations to the format.\n").data

/-- `human_message_prompt_template.format(...)`: plain substitution into the
module-level template. -/
def human_message_format
    (target input_language output_language preceding_context : PyStr) : PyStr :=
  "\n<translation range>\n".data ++ target ++
    "\n</translation range>\n\n<input language>\n".data ++ input_language ++
    "\n</input language>\n\n<output language>\n".data ++ output_language ++
    "\n</output language>\n\n<preceding context>\n".data ++ preceding_context ++
    "\n</preceding context>\n\ntranslation output for the specified translation range:\n".data

/-- The `Translator` object: the chat model collaborator (a function from the
message contents to the raw reply) and the history buffer. -/
structure Translator where
  chat_model : List PyStr → PyStr
  history_buffer : HistoryBuffer

/-- `Translator.__init__(chat_model, preceding_context_length,
history_file_path)`: builds the history buffer with the default delimiter. -/
def Translator.init (chat_model : List PyStr → PyStr) (preceding_context_length : Int)
    (history_file_path : Option PyStr) (fs : FS) : Except PyStr Translator :=
  (HistoryBuffer.init preceding_context_length history_file_path DEFAULT_DELIMITER fs).map
    (fun hb => ⟨chat_model, hb⟩)

/-- `Translator.translate(target, input_language, output_language,
include_preceding_context)`.  `self.history_buffer.get()` with no argument
never raises, so its value (`get_core` at `buffer_size`) is used directly;
`str` applied to the returned list is `pyStrOfList`.  The final `push` can
raise only when a history file is configured; the raised message then
propagates out of `translate`. -/
def Translator.translate (self : Translator) (fs : FS)
    (target input_language output_language : PyStr)
    (include_preceding_context : Bool) :
    Except PyStr (TransResult × Translator × FS) :=
  let hb := self.history_buffer
  let preceding_context : PyStr :=
    if include_preceding_context then pyStrOfList (hb.get_core fs hb.buffer_size)
    else []
  let human_message := human_message_format (pyStrip target) input_language
    output_language preceding_context
  let ai_reply := self.chat_model [system_message_content, human_message]
  let matched_jsons := findall ai_reply
  let translated_text := collectTranslated matched_jsons
  let translated : PyStr :=
    match translated_text with
    | none => target
    | some l => pyJoin ['\n'] l
  let result : TransResult := ⟨target, translated⟩
  match hb.push fs (pyStrOfResult result) with
  | (.ok _, hb2, fs2) => .ok (result, ⟨self.chat_model, hb2⟩, fs2)
  | (.error m, _, _) => .error m

/-! Lemmas about leftmost occurrences and Python `split`. -/

theorem findSub_none_not_prefix (sep : PyStr) :
    ∀ s : PyStr, findSub sep s = none → ∀ j, ¬ sep <+: s.drop j := by
  intro s
  induction s with
  | nil =>
    intro h j hpre
    by_cases hsep : sep = []
    · simp [findSub, hsep] at h
    · rw [List.drop_nil] at hpre
      exact hsep (List.prefix_nil.mp hpre)
  | cons c rest ih =>
    intro h j hpre
    simp only [findSub] at h
    cases hp : sep.isPrefixOf (c :: rest) with
    | true => simp [hp] at h
    | false =>
      simp only [hp, if_neg, Bool.false_eq_true, not_false_iff, if_false,
        Option.map_eq_none'] at h
      match j with
      | 0 =>
        rw [List.drop_zero] at hpre
        rw [← List.isPrefixOf_iff_prefix] at hpre
        simp [hp] at hpre
      | j' + 1 =>
        exact ih h j' (by simpa using hpre)

theorem findSub_eq_some_of (sep : PyStr) :
    ∀ (s : PyStr) (i : Nat), sep <+: s.drop i →
      (∀ j, j < i → ¬ sep <+: s.drop j) → findSub sep s = some i := by
  intro s
  induction s with
  | nil =>
    intro i hp hmin
    rw [List.drop_nil, List.prefix_nil] at hp
    subst hp
    match i with
    | 0 => simp [findSub]
    | i' + 1 => exact absurd (by simp) (hmin 0 (by omega))
  | cons c rest ih =>
    intro i hp hmin
    match i with
    | 0 =>
      rw [List.drop_zero] at hp
      rw [← List.isPrefixOf_iff_prefix] at hp
      simp [findSub, hp]
    | i' + 1 =>
      have h0 : ¬ sep <+: (c :: rest) := by
        have := hmin 0 (by omega)
        simpa using this
      rw [← List.isPrefixOf_iff_prefix] at h0
      simp only [findSub, h0, Bool.false_eq_true, not_false_iff, if_false,
        if_neg]
      have hrest : findSub sep rest = some i' := by
        apply ih
        · simpa using hp
        · intro j hj
          have := hmin (j + 1) (by omega)
          simpa using this
      simp [hrest]

theorem findSub_append_self (sep t : PyStr) :
    findSub sep (sep ++ t) = some 0 := by
  apply findSub_eq_some_of
  · simp [List.prefix_append]
  · intro j hj
    omega

theorem findSub_boundary (sep : PyStr) (hbf : borderFree sep)
    (e t : PyStr) (he : findSub sep e = none) :
    findSub sep (e ++ sep ++ t) = some e.length := by
  apply findSub_eq_some_of
  · rw [List.append_assoc, List.drop_left]
    simp [List.prefix_append]
  · intro j hj hpre
    have hj' : j ≤ e.length := le_of_lt hj
    rw [List.append_assoc, List.drop_append_of_le_length hj'] at hpre
    by_cases hcase : sep.length + j ≤ e.length
    · -- the occurrence would lie inside `e`
      have hlen : sep.length ≤ (e.drop j).length := by
        simp only [List.length_drop]; omega
      have : sep <+: e.drop j := by
        rw [List.prefix_iff_eq_take] at hpre ⊢
        rw [List.take_append_of_le_length hlen] at hpre
        exact hpre
      exact findSub_none_not_prefix sep e he j this
    · -- the occurrence would straddle the boundary: `sep` would have a border
      set k := e.length - j with hk
      have hk0 : 0 < k := by omega
      have hkl : k < sep.length := by omega
      have hklen : (e.drop j).length = k := by
        simp only [List.length_drop, hk]
      have heq : sep = e.drop j ++ sep.take (sep.length - k) := by
        rw [List.prefix_iff_eq_take] at hpre
        rw [List.take_append_eq_append_take, hklen,
          List.take_of_length_le (by omega),
          List.take_append_of_le_length (by omega)] at hpre
        exact hpre
      have hdrop : sep.drop k = sep.take (sep.length - k) := by
        conv_lhs => rw [heq]
        rw [← hklen, List.drop_left]
      exact hbf k hkl hk0 hdrop

theorem pyIn_eq_false_iff (sep s : PyStr) :
    pyIn sep s = false ↔ findSub sep s = none := by
  cases h : findSub sep s <;> simp [pyIn, h]

theorem pySplitNE_no_occ (c : Char) (cs s : PyStr)
    (h : findSub (c :: cs) s = none) : pySplitNE c cs s = [s] := by
  rw [pySplitNE]
  split
  · rfl
  · rename_i i hi
    rw [h] at hi
    exact absurd hi (by simp)

theorem pySplitNE_sep_head (c : Char) (cs t : PyStr) :
    pySplitNE c cs ((c :: cs) ++ t) = [] :: pySplitNE c cs t := by
  rw [pySplitNE]
  split
  · rename_i hnone
    rw [findSub_append_self] at hnone
    exact absurd hnone (by simp)
  · rename_i i hi
    rw [findSub_append_self] at hi
    have h0 : i = 0 := by injection hi with h; omega
    subst h0
    simp only [List.take_zero, Nat.zero_add]
    congr 1
    have : cs.length + 1 = (c :: cs).length := by simp
    rw [this, List.drop_left]

theorem pySplitNE_boundary (c : Char) (cs : PyStr) (hbf : borderFree (c :: cs))
    (e t : PyStr) (he : findSub (c :: cs) e = none) :
    pySplitNE c cs (e ++ (c :: cs) ++ t) = e :: pySplitNE c cs t := by
  rw [pySplitNE]
  split
  · rename_i hnone
    rw [findSub_boundary (c :: cs) hbf e t he] at hnone
    exact absurd hnone (by simp)
  · rename_i i hi
    rw [findSub_boundary (c :: cs) hbf e t he] at hi
    have h0 : i = e.length := by
      injection hi with h
      omega
    subst h0
    congr 1
    · rw [List.append_assoc, List.take_left]
    · congr 1
      have h1 : e.length + (cs.length + 1) = (e ++ c :: cs).length := by
        simp
      rw [h1, List.drop_left]

theorem split_join_aux (c : Char) (cs : PyStr) (hbf : borderFree (c :: cs)) :
    ∀ es : List PyStr, (∀ x ∈ es, findSub (c :: cs) x = none) →
      ∀ e : PyStr, findSub (c :: cs) e = none →
        pySplitNE c cs (e ++ joinE (c :: cs) es) = e :: es := by
  intro es
  induction es with
  | nil =>
    intro _ e he
    simp only [joinE, List.append_nil]
    simp [pySplitNE_no_occ c cs e he]
  | cons e' es' ih =>
    intro hes e he
    have h1 : e ++ joinE (c :: cs) (e' :: es') =
        e ++ (c :: cs) ++ (e' ++ joinE (c :: cs) es') := by
      simp [joinE, List.append_assoc]
    rw [h1, pySplitNE_boundary c cs hbf e _ he]
    congr 1
    exact ih (fun x hx => hes x (List.mem_cons_of_mem e' hx)) e'
      (hes e' (List.mem_cons_self e' es'))

theorem split_join (c : Char) (cs : PyStr) (hbf : borderFree (c :: cs))
    (entries : List PyStr) (hes : ∀ x ∈ entries, findSub (c :: cs) x = none) :
    pySplitNE c cs (joinE (c :: cs) entries) = [] :: entries := by
  match entries with
  | [] =>
    simp only [joinE]
    have : findSub (c :: cs) [] = none := by simp [findSub]
    simp [pySplitNE_no_occ c cs [] this]
  | e :: es =>
    have h1 : joinE (c :: cs) (e :: es) = (c :: cs) ++ (e ++ joinE (c :: cs) es) := by
      simp [joinE, List.append_assoc]
    rw [h1, pySplitNE_sep_head]
    congr 1
    exact split_join_aux c cs hbf es
      (fun x hx => hes x (List.mem_cons_of_mem e hx)) e (hes e (List.mem_cons_self e es))

/-! Lemmas about sequences of `push` calls. -/

/-- The in-memory buffer after a sequence of pushes (step 1 of `push`,
iterated). -/
def foldPushBuf (size : Nat) (b : List PyStr) (es : List PyStr) : List PyStr :=
  es.foldl (fun acc e => if 0 < size then pyNegSlice (acc ++ [e]) size else acc) b

theorem pushSeqE_nofile :
    ∀ (es : List PyStr) (hb : HistoryBuffer) (fs : FS), hb.file_path = none →
      pushSeqE hb fs es =
        .ok ({ hb with buffer := foldPushBuf hb.buffer_size hb.buffer es }, fs) := by
  intro es
  induction es with
  | nil =>
    intro hb fs _
    simp [pushSeqE, foldPushBuf]
  | cons e es' ih =>
    intro hb fs hfp
    obtain ⟨fp, d, sz, buf⟩ := hb
    simp only at hfp
    subst hfp
    simp only [pushSeqE, HistoryBuffer.push]
    by_cases hsz : 0 < sz
    · simp only [hsz, if_true]
      rw [ih ⟨none, d, sz, pyNegSlice (buf ++ [e]) sz⟩ fs rfl]
      simp [foldPushBuf, hsz]
    · simp only [hsz, if_false]
      rw [ih ⟨none, d, sz, buf⟩ fs rfl]
      simp [foldPushBuf, hsz]

theorem pushSeqE_file (p sep : PyStr) :
    ∀ (es : List PyStr) (hb : HistoryBuffer) (content : PyStr),
      hb.file_path = some p → hb.delimiter = sep →
      (∀ x ∈ es, pyIn sep x = false) →
      ∃ hbf : HistoryBuffer,
        pushSeqE hb (some content) es = .ok (hbf, some (content ++ joinE sep es)) := by
  intro es
  induction es with
  | nil =>
    intro hb content _ _ _
    exact ⟨hb, by simp [pushSeqE, joinE]⟩
  | cons e es' ih =>
    intro hb content hfp hd hes
    obtain ⟨fp, d, sz, buf⟩ := hb
    simp only at hfp hd
    subst hfp
    subst d
    have he : pyIn sep e = false := hes e (List.mem_cons_self e es')
    simp only [pushSeqE, HistoryBuffer.push, he, Bool.false_eq_true,
      if_false, Option.getD_some]
    by_cases hsz : 0 < sz
    · simp only [hsz, if_true]
      obtain ⟨hbf, hrun⟩ := ih ⟨some p, sep, sz, pyNegSlice (buf ++ [e]) sz⟩
        (content ++ sep ++ e) rfl rfl
        (fun x hx => hes x (List.mem_cons_of_mem e hx))
      refine ⟨hbf, ?_⟩
      rw [hrun]
      simp [joinE, List.append_assoc]
    · simp only [hsz, if_false]
      obtain ⟨hbf, hrun⟩ := ih ⟨some p, sep, sz, buf⟩ (content ++ sep ++ e) rfl rfl
        (fun x hx => hes x (List.mem_cons_of_mem e hx))
      refine ⟨hbf, ?_⟩
      rw [hrun]
      simp [joinE, List.append_assoc]

theorem pyNegSlice_append_drop {α : Type} (c : Nat) (hc : 0 < c)
    (es : List α) (e : α) :
    pyNegSlice (es.drop (es.length - c) ++ [e]) c =
      (es ++ [e]).drop (es.length + 1 - c) := by
  have hc' : c ≠ 0 := by omega
  by_cases h : c ≤ es.length
  · have hlen : (es.drop (es.length - c)).length = c := by
      simp only [List.length_drop]; omega
    simp only [pyNegSlice, hc', if_neg, not_false_iff, if_false,
      List.length_append, hlen, List.length_cons, List.length_nil]
    have h1 : c + (0 + 1) - c = 1 := by omega
    rw [h1]
    rw [List.drop_append_of_le_length (by omega),
      List.drop_append_of_le_length (by omega),
      List.drop_drop]
    congr 2
    omega
  · have h0 : es.length - c = 0 := by omega
    simp only [pyNegSlice, hc', if_neg, not_false_iff, if_false, h0,
      List.drop_zero]
    congr 1
    simp

theorem foldPushBuf_tail (c : Nat) (hc : 0 < c) :
    ∀ es : List PyStr, foldPushBuf c [] es = es.drop (es.length - c) := by
  intro es
  induction es using List.reverseRecOn with
  | nil => simp [foldPushBuf]
  | append_singleton es e ih =>
    have hstep : foldPushBuf c [] (es ++ [e]) =
        if 0 < c then pyNegSlice (foldPushBuf c [] es ++ [e]) c
        else foldPushBuf c [] es := by
      simp [foldPushBuf, List.foldl_append]
    rw [hstep, if_pos hc, ih, pyNegSlice_append_drop c hc es e]
    congr 1
    simp

theorem init_ok (c : Nat) (fp : Option PyStr) (delim : PyStr) (hd : delim ≠ [])
    (fs : FS) :
    HistoryBuffer.init (c : Int) fp delim fs =
      .ok ⟨fp, delim, c,
        if pyTruthy fp ∧ 0 < c then pyNegSlice (read_file delim fs) c else []⟩ := by
  have h1 : ¬ ((c : Int) < 0) := by
    simp
  have h2 : ¬ (delim.length < 1) := by
    have : delim.length ≠ 0 := by
      intro h
      exact hd (List.length_eq_zero.mp h)
    omega
  simp only [HistoryBuffer.init, h1, h2, if_neg, not_false_iff, if_false,
    Int.toNat_natCast]

/-- C3: for every capacity `c ≥ 0` and every sequence of `n > c` entries,
after constructing a ring with capacity `c` and no storage location (default
delimiter) and pushing the `n` entries, `get()` with no argument returns
exactly the last `c` pushed entries in insertion order; for `c = 0` this is
the empty sequence. -/
theorem C3_capacity_window (c : Nat) (entries : List PyStr)
    (hn : c < entries.length) :
    (HistoryBuffer.init (c : Int) none DEFAULT_DELIMITER none).bind (fun hb0 =>
      (pushSeqE hb0 none entries).bind (fun s =>
        (s.1.get s.2 none).map (fun r => r.1))) =
    .ok (entries.drop (entries.length - c)) := by
  rw [init_ok c none DEFAULT_DELIMITER (by decide) none]
  simp only [pyTruthy, Bool.false_eq_true, false_and, if_false, if_neg,
    not_false_iff, Except.bind]
  rw [pushSeqE_nofile entries ⟨none, DEFAULT_DELIMITER, c, []⟩ none rfl]
  simp only [HistoryBuffer.get, Except.map]
  by_cases hc : c = 0
  · subst hc
    simp [HistoryBuffer.get_core, List.drop_length]
  · have hc' : 0 < c := by omega
    rw [foldPushBuf_tail c hc' entries]
    have hlen : (entries.drop (entries.length - c)).length = c := by
      simp only [List.length_drop]; omega
    simp only [HistoryBuffer.get_core, hc, if_neg, not_false_iff, if_false,
      hlen]
    simp [pyNegSlice, hc]
    congr 1
    omega

/-- Witness for C3 at `c = 1`, entries `["a", "b"]`. -/
theorem C3_capacity_window_witness :
    (HistoryBuffer.init (1 : Nat) none DEFAULT_DELIMITER none).bind (fun hb0 =>
      (pushSeqE hb0 none ["a".data, "b".data]).bind (fun s =>
        (s.1.get s.2 none).map (fun r => r.1))) =
    .ok (["a".data, "b".data].drop (["a".data, "b".data].length - 1)) :=
  C3_capacity_window 1 ["a".data, "b".data] (by decide)

theorem pushSeqE_cons_ok (hb hb1 : HistoryBuffer) (fs fs1 : FS) (e : PyStr)
    (es : List PyStr) (h : hb.push fs e = (.ok (), hb1, fs1)) :
    pushSeqE hb fs (e :: es) = pushSeqE hb1 fs1 es := by
  simp only [pushSeqE, h]

/-- C4: round-trip through the persistent log.  From a fresh storage location
(absent, or present and empty), a ring of capacity 3 pushes `e1..e5`; a second
ring of capacity 3 constructed against the same location initially serves
`[e3, e4, e5]` from `get()`.  The delimiter is arbitrary but valid: non-empty,
border-free (the default one is), and not occurring in any pushed entry (the
condition for the pushes to succeed). -/
theorem C4_roundtrip (delim p e1 e2 e3 e4 e5 : PyStr) (fs0 : FS)
    (hd : delim ≠ []) (hbf : borderFree delim) (hfs : fs0.getD [] = [])
    (hes : ∀ e ∈ [e1, e2, e3, e4, e5], pyIn delim e = false) :
    (HistoryBuffer.init ((3 : Nat) : Int) (some p) delim fs0).bind (fun hb1 =>
      (pushSeqE hb1 fs0 [e1, e2, e3, e4, e5]).bind (fun s =>
        (HistoryBuffer.init ((3 : Nat) : Int) (some p) delim s.2).bind (fun hb2 =>
          (hb2.get s.2 none).map (fun r => r.1)))) = .ok [e3, e4, e5] := by
  obtain ⟨c, cs, rfl⟩ : ∃ c cs, delim = c :: cs := by
    cases delim with
    | nil => exact absurd rfl hd
    | cons c cs => exact ⟨c, cs, rfl⟩
  have he1 : pyIn (c :: cs) e1 = false := hes e1 (by simp)
  have hes' : ∀ x ∈ [e2, e3, e4, e5], pyIn (c :: cs) x = false := by
    intro x hx
    apply hes
    simp only [List.mem_cons] at hx ⊢
    tauto
  rw [init_ok 3 (some p) (c :: cs) hd fs0]
  simp only [Except.bind]
  obtain ⟨hbf5, hrun⟩ := pushSeqE_file p (c :: cs) [e2, e3, e4, e5]
    ⟨some p, c :: cs, 3,
      pyNegSlice ((if pyTruthy (some p) ∧ 0 < 3 then
        pyNegSlice (read_file (c :: cs) fs0) 3 else []) ++ [e1]) 3⟩
    (fs0.getD [] ++ (c :: cs) ++ e1) rfl rfl hes'
  have hstep : HistoryBuffer.push
      ⟨some p, c :: cs, 3,
        if pyTruthy (some p) ∧ 0 < 3 then
          pyNegSlice (read_file (c :: cs) fs0) 3 else []⟩ fs0 e1 =
      (.ok (), ⟨some p, c :: cs, 3,
        pyNegSlice ((if pyTruthy (some p) ∧ 0 < 3 then
          pyNegSlice (read_file (c :: cs) fs0) 3 else []) ++ [e1]) 3⟩,
        some (fs0.getD [] ++ (c :: cs) ++ e1)) := by
    simp [HistoryBuffer.push, he1]
  have hseq : pushSeqE
      ⟨some p, c :: cs, 3,
        if pyTruthy (some p) ∧ 0 < 3 then
          pyNegSlice (read_file (c :: cs) fs0) 3 else []⟩
      fs0 [e1, e2, e3, e4, e5] =
      .ok (hbf5, some (joinE (c :: cs) [e1, e2, e3, e4, e5])) := by
    rw [pushSeqE_cons_ok _ _ _ _ _ _ hstep, hrun, hfs]
    simp [joinE, List.append_assoc]
  rw [hseq]
  simp only [Except.bind]
  rw [init_ok 3 (some p) (c :: cs) hd (some (joinE (c :: cs) [e1, e2, e3, e4, e5]))]
  simp only [Except.bind]
  have hread : read_file (c :: cs) (some (joinE (c :: cs) [e1, e2, e3, e4, e5])) =
      [e1, e2, e3, e4, e5] := by
    simp only [read_file, pySplit]
    rw [split_join c cs hbf _ (by
      intro x hx
      rw [← pyIn_eq_false_iff]
      exact hes x hx)]
    simp
  rw [hread]
  simp only [HistoryBuffer.get, Except.map]
  cases hp : p.isEmpty with
  | true =>
    simp only [pyTruthy, hp, Bool.not_true, Bool.false_eq_true, false_and,
      if_false, if_neg, not_false_iff]
    simp [HistoryBuffer.get_core, hread, pyNegSlice]
  | false =>
    simp only [pyTruthy, hp, Bool.not_false, true_and,
      show (0 : Nat) < 3 from by omega, if_true, and_true]
    simp [HistoryBuffer.get_core, pyNegSlice]

/-- Witness for C4: delimiter `"#"`, path `"h"`, absent initial file, entries
`"a".."e"`. -/
theorem C4_roundtrip_witness :
    (HistoryBuffer.init ((3 : Nat) : Int) (some "h".data) "#".data none).bind
      (fun hb1 =>
        (pushSeqE hb1 none ["a".data, "b".data, "c".data, "d".data, "e".data]).bind
          (fun s =>
            (HistoryBuffer.init ((3 : Nat) : Int) (some "h".data) "#".data s.2).bind
              (fun hb2 => (hb2.get s.2 none).map (fun r => r.1)))) =
    .ok ["c".data, "d".data, "e".data] :=
  C4_roundtrip "#".data "h".data "a".data "b".data "c".data "d".data "e".data
    none (by decide) (by decide) rfl (by decide)

/-- C1 (counterexample): a ring with a storage location and capacity 1, whose
pushed entry `"a#b"` contains the delimiter `"#"`: the push raises the
delimiter-collision validation error, yet the in-memory sequence is no longer
the pre-call `[]` — the claim fails on the code. -/
theorem C1_counterexample :
    HistoryBuffer.init 1 (some "h".data) "#".data none =
      .ok ⟨some "h".data, "#".data, 1, []⟩ ∧
    (HistoryBuffer.push ⟨some "h".data, "#".data, 1, []⟩ none "a#b".data).1 =
      .error "content must not contain the delimiter: #".data ∧
    (HistoryBuffer.push ⟨some "h".data, "#".data, 1, []⟩ none "a#b".data).2.1.buffer ≠
      ([] : List PyStr) :=
  ⟨rfl, rfl, by decide⟩

/-- C1 (amended): when a push on a ring with a storage location and positive
capacity fails with the delimiter-collision validation error, the storage
location is untouched, but the in-memory sequence keeps the appended (and
capacity-trimmed) entry: the mutation of step 1 is not rolled back. -/
theorem C1_amended_failed_push_state (hb : HistoryBuffer) (fs : FS)
    (content p : PyStr) (hfp : hb.file_path = some p)
    (hin : pyIn hb.delimiter content = true) (hcap : 0 < hb.buffer_size) :
    hb.push fs content =
      (.error ("content must not contain the delimiter: ".data ++ hb.delimiter),
        { hb with buffer := pyNegSlice (hb.buffer ++ [content]) hb.buffer_size },
        fs) := by
  obtain ⟨fp, d, sz, buf⟩ := hb
  simp only at hfp hin hcap
  subst hfp
  simp [HistoryBuffer.push, hin, hcap]

/-- Witness for the amended C1. -/
theorem C1_amended_failed_push_state_witness :
    HistoryBuffer.push ⟨some "h".data, "#".data, 1, []⟩ none "a#b".data =
      (.error "content must not contain the delimiter: #".data,
        ⟨some "h".data, "#".data, 1, ["a#b".data]⟩, none) := by
  rw [C1_amended_failed_push_state ⟨some "h".data, "#".data, 1, []⟩ none
    "a#b".data "h".data rfl (by decide) (by decide)]
  rfl

/-- C5: pushing an entry that contains the configured separator to a ring
with a storage location raises the validation error, and the storage location
is left exactly as it was (nothing is appended, truncated or escaped). -/
theorem C5_delimiter_collision_no_write (hb : HistoryBuffer) (fs : FS)
    (content p : PyStr) (hfp : hb.file_path = some p)
    (hin : pyIn hb.delimiter content = true) :
    (hb.push fs content).1 =
      .error ("content must not contain the delimiter: ".data ++ hb.delimiter) ∧
    (hb.push fs content).2.2 = fs := by
  obtain ⟨fp, d, sz, buf⟩ := hb
  simp only at hfp hin
  subst hfp
  constructor <;> simp [HistoryBuffer.push, hin]

/-- Witness for C5. -/
theorem C5_delimiter_collision_no_write_witness :
    (HistoryBuffer.push ⟨some "h".data, "#".data, 0, []⟩ (some "x".data)
        "a#b".data).1 =
      .error ("content must not contain the delimiter: ".data ++ "#".data) ∧
    (HistoryBuffer.push ⟨some "h".data, "#".data, 0, []⟩ (some "x".data)
        "a#b".data).2.2 = some "x".data :=
  C5_delimiter_collision_no_write ⟨some "h".data, "#".data, 0, []⟩
    (some "x".data) "a#b".data "h".data rfl (by decide)

/-- C6: a ring constructed with capacity 0 and a storage location has an empty
in-memory sequence, and a successful push of a valid entry appends the
separator followed by the entry to the storage location while leaving the
object (hence its empty in-memory sequence) unchanged. -/
theorem C6_capacity_zero_still_appends (p delim content : PyStr) (fs0 fs : FS)
    (hd : delim ≠ []) (hnin : pyIn delim content = false) :
    HistoryBuffer.init ((0 : Nat) : Int) (some p) delim fs0 =
      .ok ⟨some p, delim, 0, []⟩ ∧
    HistoryBuffer.push ⟨some p, delim, 0, []⟩ fs content =
      (.ok (), ⟨some p, delim, 0, []⟩, some ((fs.getD []) ++ delim ++ content)) := by
  constructor
  · rw [init_ok 0 (some p) delim hd fs0]
    simp
  · simp [HistoryBuffer.push, hnin]

/-- Witness for C6. -/
theorem C6_capacity_zero_still_appends_witness :
    HistoryBuffer.init ((0 : Nat) : Int) (some "h".data) "#".data none =
      .ok ⟨some "h".data, "#".data, 0, []⟩ ∧
    HistoryBuffer.push ⟨some "h".data, "#".data, 0, []⟩ (some "#a".data) "b".data =
      (.ok (), ⟨some "h".data, "#".data, 0, []⟩,
        some (((some "#a".data).getD []) ++ "#".data ++ "b".data)) :=
  C6_capacity_zero_still_appends "h".data "#".data "b".data none (some "#a".data)
    (by decide) (by decide)

theorem get_readthrough_aux (hb : HistoryBuffer) (fs : FS) (p : PyStr) (ml : Nat)
    (hfp : hb.file_path = some p) (hml : hb.buffer.length < ml) :
    hb.get fs (some (ml : Int)) =
      .ok (pyNegSlice (read_file hb.delimiter fs) ml, hb, fs) := by
  have h0 : ¬ ((ml : Int) < 0) := by simp
  have hml0 : ¬ (ml = 0) := by omega
  have hcond : ¬ (ml ≤ hb.buffer.length ∨ hb.file_path = none) := by
    rw [hfp]
    push_neg
    exact ⟨by omega, by simp⟩
  simp only [HistoryBuffer.get, h0, if_neg, not_false_iff, if_false,
    Int.toNat_natCast, HistoryBuffer.get_core, hml0, hcond]

/-- C7: on a ring with a storage location, `get(max_length)` with
`max_length` exceeding the number of in-memory entries returns the last
`max_length` entries of a fresh read of the storage location (which can
include entries already evicted from memory), and returns the object and the
storage location unchanged. -/
theorem C7_get_readthrough (hb : HistoryBuffer) (fs : FS) (p : PyStr) (ml : Nat)
    (hfp : hb.file_path = some p) (hml : hb.buffer.length < ml) :
    hb.get fs (some (ml : Int)) =
      .ok (pyNegSlice (read_file hb.delimiter fs) ml, hb, fs) :=
  get_readthrough_aux hb fs p ml hfp hml

/-- Witness for C7: two cached entries, three requested; the result comes from
the file and includes the evicted entry `"x"`. -/
theorem C7_get_readthrough_witness :
    HistoryBuffer.get ⟨some "h".data, "#".data, 2, ["y".data, "z".data]⟩
        (some "#x#y#z".data) (some ((3 : Nat) : Int)) =
      .ok (pyNegSlice (read_file "#".data (some "#x#y#z".data)) 3,
        ⟨some "h".data, "#".data, 2, ["y".data, "z".data]⟩,
        some "#x#y#z".data) :=
  C7_get_readthrough ⟨some "h".data, "#".data, 2, ["y".data, "z".data]⟩
    (some "#x#y#z".data) "h".data 3 rfl (by decide)

/-- C8: a missing or unreadable storage location reads as the empty sequence
rather than an error: `__read_file` yields `[]`, construction with positive
capacity against such a location succeeds with an empty in-memory sequence,
and a `get` that resolves to the storage location returns an empty result. -/
theorem C8_missing_storage_best_effort (c : Nat) (_hc : 0 < c)
    (p delim : PyStr) (hd : delim ≠ []) (hb : HistoryBuffer) (ml : Nat)
    (hfp : hb.file_path = some p) (hml : hb.buffer.length < ml) :
    read_file delim none = [] ∧
    HistoryBuffer.init (c : Int) (some p) delim none =
      .ok ⟨some p, delim, c, []⟩ ∧
    hb.get none (some (ml : Int)) = .ok ([], hb, none) := by
  refine ⟨rfl, ?_, ?_⟩
  · rw [init_ok c (some p) delim hd none]
    have : pyNegSlice (read_file delim none) c = [] := by
      simp [read_file, pyNegSlice]
    simp [this]
  · rw [get_readthrough_aux hb none p ml hfp hml]
    have : pyNegSlice (read_file hb.delimiter none) ml = [] := by
      simp [read_file, pyNegSlice]
    rw [this]

/-- Witness for C8. -/
theorem C8_missing_storage_best_effort_witness :
    read_file "#".data none = [] ∧
    HistoryBuffer.init ((2 : Nat) : Int) (some "h".data) "#".data none =
      .ok ⟨some "h".data, "#".data, 2, []⟩ ∧
    HistoryBuffer.get ⟨some "h".data, "#".data, 2, ["y".data]⟩ none
      (some ((2 : Nat) : Int)) =
      .ok ([], ⟨some "h".data, "#".data, 2, ["y".data]⟩, none) :=
  C8_missing_storage_best_effort 2 (by decide) "h".data "#".data (by decide)
    ⟨some "h".data, "#".data, 2, ["y".data]⟩ 2 rfl (by decide)

/-- C10: when `get(max_length)` on a ring with a storage location and a
non-empty in-memory sequence resolves to the storage read (because
`max_length` exceeds the cached length) and that read fails, the call returns
the empty sequence — the cached entries are not used as a fallback. -/
theorem C10_no_cache_fallback (hb : HistoryBuffer) (p : PyStr) (ml : Nat)
    (hfp : hb.file_path = some p) (_hne : hb.buffer ≠ [])
    (hml : hb.buffer.length < ml) :
    hb.get none (some (ml : Int)) = .ok ([], hb, none) := by
  rw [get_readthrough_aux hb none p ml hfp hml]
  have : pyNegSlice (read_file hb.delimiter none) ml = [] := by
    simp [read_file, pyNegSlice]
  rw [this]

/-- Witness for C10: one cached entry, two requested, read fails, result
empty although the cache is non-empty. -/
theorem C10_no_cache_fallback_witness :
    HistoryBuffer.get ⟨some "h".data, "#".data, 3, ["y".data]⟩ none
      (some ((2 : Nat) : Int)) =
      .ok ([], ⟨some "h".data, "#".data, 3, ["y".data]⟩, none) :=
  C10_no_cache_fallback ⟨some "h".data, "#".data, 3, ["y".data]⟩ "h".data 2
    rfl (by decide) (by decide)

/-! Lemmas about the extraction loop and `Translator.translate`. -/

theorem collectTranslated_go_all_some :
    ∀ jss : List PyStr, (∀ js ∈ jss, (extract_translated js).isSome = true) →
      ∀ acc : List PyStr,
        collectTranslated.go jss acc =
          some (acc ++ jss.map (fun js => (extract_translated js).getD [])) := by
  intro jss
  induction jss with
  | nil =>
    intro _ acc
    simp [collectTranslated.go]
  | cons js rest ih =>
    intro hall acc
    obtain ⟨s, hx⟩ := Option.isSome_iff_exists.mp
      (hall js (List.mem_cons_self js rest))
    simp only [collectTranslated.go, hx]
    rw [ih (fun x hxm => hall x (List.mem_cons_of_mem js hxm)) (acc ++ [s])]
    simp [hx]

/-- When every matched fragment yields a string, the extraction loop collects
exactly those strings in order. -/
theorem collectTranslated_all_some (jss : List PyStr)
    (hall : ∀ js ∈ jss, (extract_translated js).isSome = true) :
    collectTranslated jss =
      some (jss.map (fun js => (extract_translated js).getD [])) := by
  rw [collectTranslated, collectTranslated_go_all_some jss hall []]
  simp

/-- When some matched fragment fails extraction, the loop yields `none`. -/
theorem collectTranslated_fails (jss : List PyStr) (js : PyStr)
    (hmem : js ∈ jss) (hfail : extract_translated js = none) :
    collectTranslated jss = none := by
  rw [collectTranslated]
  suffices h : ∀ acc, collectTranslated.go jss acc = none from h []
  induction jss with
  | nil => exact absurd hmem (by simp)
  | cons j rest ih =>
    intro acc
    rcases List.mem_cons.mp hmem with heq | hmem'
    · subst heq
      simp [collectTranslated.go, hfail]
    · simp only [collectTranslated.go]
      cases hx : extract_translated j with
      | none => rfl
      | some s => exact ih hmem' (acc ++ [s])

/-- What `Translator.translate` returns when the final `push` did not raise:
the result's original text is the target, and its translated text is the
fallback-or-join of the extraction loop over the matched fragments of the
collaborator's reply. -/
theorem translate_ok_characterization (cm : List PyStr → PyStr)
    (hb : HistoryBuffer) (fs : FS) (target il ol : PyStr) (flag : Bool)
    (res : TransResult) (tr2 : Translator) (fs2 : FS)
    (hrun : Translator.translate ⟨cm, hb⟩ fs target il ol flag =
      .ok (res, tr2, fs2)) :
    res = ⟨target,
      match collectTranslated (findall (cm [system_message_content,
          human_message_format (pyStrip target) il ol
            (if flag then pyStrOfList (hb.get_core fs hb.buffer_size) else [])])) with
      | none => target
      | some l => pyJoin ['\n'] l⟩ := by
  simp only [Translator.translate] at hrun
  set X := pyStrOfResult ⟨target,
    match collectTranslated (findall (cm [system_message_content,
        human_message_format (pyStrip target) il ol
          (if flag then pyStrOfList (hb.get_core fs hb.buffer_size) else [])])) with
    | none => target
    | some l => pyJoin ['\n'] l⟩ with hX
  rcases hpush : hb.push fs X with ⟨e, hb2, fs2'⟩
  rw [hpush] at hrun
  cases e with
  | ok u =>
    have h3 := Except.ok.inj hrun
    exact (congrArg Prod.fst h3).symm
  | error m =>
    simp at hrun

/-- C9: for every collaborator reply whose matched JSON-shaped fragments all
parse to objects with a string-valued `translated_text` field, a returned
`translate` result has `translated_text` equal to those fields' values joined
with newline separators (the collaborator is the constant function returning
that reply). -/
theorem C9_join_parsed_fragments (reply target il ol : PyStr)
    (hb : HistoryBuffer) (fs : FS) (flag : Bool) (res : TransResult)
    (tr2 : Translator) (fs2 : FS)
    (hall : ∀ js ∈ findall reply, (extract_translated js).isSome = true)
    (hrun : Translator.translate ⟨fun _ => reply, hb⟩ fs target il ol flag =
      .ok (res, tr2, fs2)) :
    res.translated_text =
      pyJoin ['\n'] ((findall reply).map
        (fun js => (extract_translated js).getD [])) := by
  rw [translate_ok_characterization (fun _ => reply) hb fs target il ol flag
    res tr2 fs2 hrun]
  rw [collectTranslated_all_some (findall reply) hall]

/-- Witness for C9: the reply is exactly
`{"translated_text": "bonjour"}` and the returned result's `translated_text`
is `"bonjour"`. -/
theorem C9_join_parsed_fragments_witness :
    (⟨"hi".data, "bonjour".data⟩ : TransResult).translated_text =
      pyJoin ['\n']
        ((findall "\x7b\x22translated_text\x22: \x22bonjour\x22\x7d".data).map
          (fun js => (extract_translated js).getD [])) :=
  C9_join_parsed_fragments "\x7b\x22translated_text\x22: \x22bonjour\x22\x7d".data
    "hi".data "fr".data "ko".data ⟨none, DEFAULT_DELIMITER, 10, []⟩ none false
    ⟨"hi".data, "bonjour".data⟩
    ⟨fun _ => "\x7b\x22translated_text\x22: \x22bonjour\x22\x7d".data,
      ⟨none, DEFAULT_DELIMITER, 10,
        [pyStrOfResult ⟨"hi".data, "bonjour".data⟩]⟩⟩ none
    (by decide) (by rfl)

/-- C2 (counterexample): the reply `"hello"` contains no parseable JSON
object (indeed no JSON-shaped fragment at all), yet `translate` returns
`translated_text = ""` — not the original input `"bonjour"`.  The claim as
stated fails on the code. -/
theorem C2_counterexample :
    findall "hello".data = [] ∧
    (Translator.translate
        ⟨fun _ => "hello".data, ⟨none, DEFAULT_DELIMITER, 10, []⟩⟩ none
        "bonjour".data "French".data "English".data false).map
      (fun r => r.1.translated_text) = .ok [] ∧
    "bonjour".data ≠ ([] : PyStr) :=
  ⟨by decide, by rfl, by decide⟩

/-- C2 (amended): when the reply has at least one regex-matched JSON-shaped
fragment and none of the matched fragments parses as JSON, a returned
`translate` result has `translated_text` equal to the original input text
verbatim.  (When the reply has no JSON-shaped fragment at all, the code
instead returns the empty string — see the counterexample.) -/
theorem C2_amended_fallback (reply target il ol : PyStr) (hb : HistoryBuffer)
    (fs : FS) (flag : Bool) (res : TransResult) (tr2 : Translator) (fs2 : FS)
    (hne : findall reply ≠ [])
    (hfail : ∀ js ∈ findall reply, (json_loads js).isNone = true)
    (hrun : Translator.translate ⟨fun _ => reply, hb⟩ fs target il ol flag =
      .ok (res, tr2, fs2)) :
    res.translated_text = target := by
  rw [translate_ok_characterization (fun _ => reply) hb fs target il ol flag
    res tr2 fs2 hrun]
  rcases hfr : findall reply with _ | ⟨j, rest⟩
  · exact absurd hfr hne
  · have hj : extract_translated j = none := by
      have hmem : j ∈ findall reply := by rw [hfr]; simp
      have := hfail j hmem
      rw [Option.isNone_iff_eq_none] at this
      simp [extract_translated, this]
    rw [collectTranslated_fails (j :: rest) j (by simp) hj]

/-- Witness for the amended C2: reply `"{not json}"`, one matched fragment,
no parseable JSON; the returned result echoes the input `"bonjour"`. -/
theorem C2_amended_fallback_witness :
    (⟨"bonjour".data, "bonjour".data⟩ : TransResult).translated_text =
      "bonjour".data :=
  C2_amended_fallback "\x7bnot json\x7d".data "bonjour".data "fr".data "en".data
    ⟨none, DEFAULT_DELIMITER, 10, []⟩ none false
    ⟨"bonjour".data, "bonjour".data⟩
    ⟨fun _ => "\x7bnot json\x7d".data,
      ⟨none, DEFAULT_DELIMITER, 10,
        [pyStrOfResult ⟨"bonjour".data, "bonjour".data⟩]⟩⟩ none
    (by decide) (by decide) (by rfl)
